import Mathlib

/-!
Shallow embedding of the growable-array container in
`src/advanced-vector/vector.h` (`RawMemory<T>` + `Vector<T>`).

Modelling conventions:
* A `Vector<T>` state is `VecState α`: `slots` is the owned block, one entry
  per capacity slot; `some a` means the slot holds a live element of value
  `a`, `none` means the slot is raw (uninitialized) memory.  The capacity is
  `slots.length`, the logical size is `size`.
* Placement-new and assignment into a slot are modelled as writing `some x`;
  `std::destroy_at` / `std::destroy_n` on a slot is modelled as writing
  `none` at that index (in the C++ code destroying a slot that holds no live
  object is undefined behaviour; the model records only which index the
  destructor call targets, so such a call leaves the still-live neighbour
  slots visible).
* Relocation (`std::uninitialized_move_n` / `std::uninitialized_copy_n`)
  is value-preserving: the destination slot receives the source slot's value.
* Operations that can observe a user exception (the forwarding `PushBack`,
  `EmplaceBack`, the copy-assignment operator) additionally get explicit
  throw oracles; the non-throwing execution of every operation is embedded
  as a plain total function.
-/

namespace AdvVector

/-- State of one `Vector<T>`: the owned block (`slots`, one `Option α` per
capacity slot, `some` = live element) and the logical size `size_`. -/
structure VecState (α : Type) where
  slots : List (Option α)
  size : Nat
deriving DecidableEq, Repr

/-- Value stored in slot `i` of the block (`none` when the slot is raw
memory or out of range). -/
def slotGet {α : Type} (v : VecState α) (i : Nat) : Option α :=
  v.slots.getD i none

/-- A freshly written block of `cap` slots whose slot `i` holds `f i`.
Used to model the contents of a block after an operation wrote it. -/
def newBlock {α : Type} (cap : Nat) (f : Nat → Option α) : List (Option α) :=
  (List.range cap).map f

/-- Default-constructed `Vector()`: size 0, capacity 0. -/
def vecNil (α : Type) : VecState α := ⟨[], 0⟩

/-- Invariant claimed by the spec: `size ≤ capacity`, slots `[0, size)` hold
live elements, slots `[size, capacity)` are uninitialized. -/
def WF {α : Type} (v : VecState α) : Prop :=
  v.size ≤ v.slots.length ∧
  (∀ i, i < v.size → (slotGet v i).isSome = true) ∧
  (∀ i, i < v.slots.length → v.size ≤ i → slotGet v i = none)

/-- Embedding of `Vector<T>::PopBack()` (vector.h:294-301): if `size_ == 0`
return; else `std::destroy_at(data_.GetAddress() + size_)` — note the code
targets index `size_`, one past the last live element — then `size_--`. -/
def popBack {α : Type} (v : VecState α) : VecState α :=
  if v.size = 0 then v
  else ⟨newBlock v.slots.length (fun i => if i = v.size then none else slotGet v i),
        v.size - 1⟩

/-- Embedding of `Vector<T>::Erase(pos)` (vector.h:273-282), with `pos` as an
index: `std::move(it + 1, end(), it)` shifts the values of slots
`[pos+1, size)` one slot left; then `std::destroy_at(data_.GetAddress() + size_)`
— again index `size_`, one past the live range, not the vacated slot
`size_ - 1` — then `size_--`; returns `begin() + distance`, i.e. index `pos`. -/
def erase {α : Type} (v : VecState α) (pos : Nat) : VecState α × Nat :=
  (⟨newBlock v.slots.length (fun i =>
      if i = v.size then none
      else if pos ≤ i ∧ i + 1 < v.size then slotGet v (i + 1)
      else slotGet v i),
    v.size - 1⟩, pos)

/-- Embedding of the copy-overload `Vector<T>::PushBack(const T&)`
(vector.h:172-188): when `size_ == Capacity()` allocate
`size_ == 0 ? 1 : size_ * 2` slots, write `value` into slot `size_` of the
new block (`new_data[size_] = value`), relocate slots `[0, size_)`, destroy
the originals and adopt the new block; otherwise `data_[size_] = value`;
finally `++size_`. -/
def pushBackC {α : Type} (v : VecState α) (x : α) : VecState α :=
  if v.size = v.slots.length then
    ⟨newBlock (if v.size = 0 then 1 else v.size * 2) (fun i =>
        if i = v.size then some x
        else if i < v.size then slotGet v i
        else none),
      v.size + 1⟩
  else
    ⟨newBlock v.slots.length (fun i => if i = v.size then some x else slotGet v i),
      v.size + 1⟩

/-- Embedding of the successful (no-throw) execution of the forwarding
`Vector<T>::PushBack(U&&)` (vector.h:190-215): when `Capacity() > size_`,
placement-new at slot `size_`; otherwise allocate
`max(Capacity() * 2, size_ + 1)` slots, construct the new element at slot
`size_` of the new block, relocate slots `[0, size_)`, destroy the
originals and adopt the new block; finally `++size_`. -/
def pushBackF {α : Type} (v : VecState α) (x : α) : VecState α :=
  if v.size < v.slots.length then
    ⟨newBlock v.slots.length (fun i => if i = v.size then some x else slotGet v i),
      v.size + 1⟩
  else
    ⟨newBlock (max (v.slots.length * 2) (v.size + 1)) (fun i =>
        if i = v.size then some x
        else if i < v.size then slotGet v i
        else none),
      v.size + 1⟩

/-- Embedding of the successful (no-throw) execution of
`Vector<T>::EmplaceBack(Args&&...)` (vector.h:217-236): when
`size_ == Capacity()` allocate `size_ == 0 ? 1 : size_ * 2` slots, construct
the new element at slot `size_` of the new block, relocate `[0, size_)`,
destroy the originals and adopt the new block; otherwise placement-new at
slot `size_`; finally `++size_`. -/
def emplaceBack {α : Type} (v : VecState α) (x : α) : VecState α :=
  if v.size = v.slots.length then
    ⟨newBlock (if v.size = 0 then 1 else v.size * 2) (fun i =>
        if i = v.size then some x
        else if i < v.size then slotGet v i
        else none),
      v.size + 1⟩
  else
    ⟨newBlock v.slots.length (fun i => if i = v.size then some x else slotGet v i),
      v.size + 1⟩

/-- Embedding of `Vector<T>::Reserve(new_capacity)` (vector.h:137-149):
no-op unless `new_capacity > Capacity()`; else allocate `new_capacity`
slots, relocate slots `[0, size_)` into the new block, destroy the
originals and adopt the new block. -/
def reserve {α : Type} (v : VecState α) (n : Nat) : VecState α :=
  if v.slots.length < n then
    ⟨newBlock n (fun i => if i < v.size then slotGet v i else none), v.size⟩
  else v

/-- Embedding of `Vector<T>::Resize(new_size)` (vector.h:151-161): when
`size_ > new_size` destroy slots `[new_size, size_)` and set
`size_ = new_size`; when `size_ < new_size` call `Reserve(new_size)`, then
default-construct slots `[size_, new_size)` (value `d` models the
default-constructed element) and set `size_ = new_size`; else no-op. -/
def resize {α : Type} (v : VecState α) (n : Nat) (d : α) : VecState α :=
  if n < v.size then
    ⟨newBlock v.slots.length (fun i =>
        if n ≤ i ∧ i < v.size then none else slotGet v i), n⟩
  else if v.size < n then
    ⟨newBlock (reserve v n).slots.length (fun i =>
        if v.size ≤ i ∧ i < n then some d else slotGet (reserve v n) i), n⟩
  else v

/-- Outcome of an append operation in the presence of user exceptions:
`ok` = normal completion; `threwNew` = the construction of the new element
threw, `v` is the observable state afterwards; `threwReloc` = relocation of
the old elements threw, `v` is the observable state and `newDestroyed`
records whether the already-constructed new element had its destructor run
before the exception propagated. -/
inductive PushResult (α : Type) where
  | ok (v : VecState α)
  | threwNew (v : VecState α)
  | threwReloc (v : VecState α) (newDestroyed : Bool)
deriving DecidableEq, Repr

/-- Embedding of the forwarding `Vector<T>::PushBack(U&&)` (vector.h:190-215)
with explicit throw oracles.  `newThrows` = the construction of the new
element from `value` throws; `useMove` = the `constexpr` trait chose
`uninitialized_move_n` (assumed non-throwing); `relocThrows i` = copying
element `i` during relocation throws.  On the reallocation path the code
constructs the new element at slot `size_` of the new block first, then
relocates `[0, size_)` inside a `try`; the `catch` destroys the new element
(`std::destroy_n(new_data.GetAddress() + size_, 1)`) and rethrows, leaving
`data_` and `size_` untouched. -/
def pushBackFT {α : Type} (v : VecState α) (x : α) (newThrows useMove : Bool)
    (relocThrows : Nat → Bool) : PushResult α :=
  if v.size < v.slots.length then
    if newThrows then .threwNew v else .ok (pushBackF v x)
  else if newThrows then .threwNew v
  else if useMove = false ∧ (List.range v.size).any relocThrows then
    .threwReloc v true
  else .ok (pushBackF v x)

/-- Embedding of `Vector<T>::EmplaceBack(Args&&...)` (vector.h:217-236) with
the same throw oracles.  On the reallocation path the code constructs the
new element at slot `size_` of the new block first and then relocates
`[0, size_)` with no `try`/`catch`: if relocation throws, the exception
propagates with `data_` and `size_` untouched, and the new element's
destructor is never run (`newDestroyed = false`). -/
def emplaceBackT {α : Type} (v : VecState α) (x : α) (newThrows useMove : Bool)
    (relocThrows : Nat → Bool) : PushResult α :=
  if v.size = v.slots.length then
    if newThrows then .threwNew v
    else if useMove = false ∧ (List.range v.size).any relocThrows then
      .threwReloc v false
    else .ok (emplaceBack v x)
  else if newThrows then .threwNew v
  else .ok (emplaceBack v x)

/-- Outcome of copy assignment: `ok` = normal completion with the new
left-hand state; `threw` = an element copy threw, `v` is the left-hand
side's observable state when the exception propagates. -/
inductive CopyResult (α : Type) where
  | ok (v : VecState α)
  | threw (v : VecState α)
deriving DecidableEq, Repr

/-- Embedding of `Vector<T>::operator=(const Vector&)` (vector.h:303-328).
`aliased` models the `this != &rhs` self-assignment guard.  When
`rhs.size_ > data_.Capacity()`: build `Vector rhs_copy(rhs)` (the copy
constructor allocates exactly `rhs.size_` slots and copies `rhs.size_`
elements; `copyThrows i` = copying element `i` throws, in which case the
partial copy is torn down and the exception propagates before `Swap`, so
the left side is untouched) and then `Swap(rhs_copy)`.  Otherwise work in
place: if `rhs.Size() >= size_`, assign slots `[0, size_)` from `rhs` and
copy-construct slots `[size_, rhs.size_)`; else assign slots
`[0, rhs.size_)` and destroy slots `[rhs.size_, size_)`; finally
`size_ = rhs.size_`.  Throws of the in-place per-slot assignments (the
spec's basic-safety path) are not modelled: no claim under verification
depends on them. -/
def copyAssignT {α : Type} (aliased : Bool) (lhs rhs : VecState α)
    (copyThrows : Nat → Bool) : CopyResult α :=
  if aliased then .ok lhs
  else if lhs.slots.length < rhs.size then
    if (List.range rhs.size).any copyThrows then .threw lhs
    else .ok ⟨newBlock rhs.size (fun i => slotGet rhs i), rhs.size⟩
  else if lhs.size ≤ rhs.size then
    .ok ⟨newBlock lhs.slots.length (fun i =>
        if i < rhs.size then slotGet rhs i else slotGet lhs i), rhs.size⟩
  else
    .ok ⟨newBlock lhs.slots.length (fun i =>
        if i < rhs.size then slotGet rhs i
        else if i < lhs.size then none
        else slotGet lhs i), rhs.size⟩

/-- Embedding of `Vector<T>::operator=(Vector&&)` (vector.h:372-378): if
`this != &other` (`aliased = false`), `Swap(other)`; returns the pair
(new left state, new right state). -/
def moveAssign {α : Type} (aliased : Bool) (lhs rhs : VecState α) :
    VecState α × VecState α :=
  if aliased then (lhs, rhs) else (rhs, lhs)

/-- Embedding of `Vector<T>::Swap` (vector.h:131-135): `data_.Swap(other.data_)`
exchanges buffer and capacity, `std::swap(size_, other.size_)` exchanges the
sizes; returns the pair (new left state, new right state). -/
def vswap {α : Type} (a b : VecState α) : VecState α × VecState α :=
  (⟨b.slots, b.size⟩, ⟨a.slots, a.size⟩)

/-- Basic facts about `newBlock`: its length and its slot values. -/
theorem newBlock_length {α : Type} (cap : Nat) (f : Nat → Option α) :
    (newBlock cap f).length = cap := by
  simp [newBlock]

theorem newBlock_getD {α : Type} (cap : Nat) (f : Nat → Option α) (i : Nat) :
    (newBlock cap f).getD i none = if i < cap then f i else none := by
  by_cases h : i < cap
  · simp [newBlock, List.getD, List.getElem?_map, List.getElem?_range, h]
  · have hlen : (newBlock cap f).length ≤ i := by
      simpa [newBlock_length] using Nat.le_of_not_lt h
    simp [List.getD, List.getElem?_eq_none hlen, h]

theorem slotGet_oob {α : Type} (v : VecState α) (i : Nat)
    (h : v.slots.length ≤ i) : slotGet v i = none := by
  simp [slotGet, List.getD, List.getElem?_eq_none h]

theorem slotGet_mk_newBlock {α : Type} (cap : Nat) (f : Nat → Option α)
    (s i : Nat) :
    slotGet (⟨newBlock cap f, s⟩ : VecState α) i =
      if i < cap then f i else none :=
  newBlock_getD cap f i

instance decidableWF {α : Type} [DecidableEq α] (v : VecState α) :
    Decidable (WF v) := by
  unfold WF
  infer_instance

/-- Claim C1 (status: code_bug).  On the one-element vector `[7]`
(size 1, capacity 1), `PopBack` decrements the size to 0 but the element at
index `size - 1 = 0` is still live afterwards: the code calls
`std::destroy_at(data_.GetAddress() + size_)`, destroying slot index
`size_` (one past the last live element — uninitialized memory or past the
end of the buffer, undefined behaviour in C++) instead of slot
`size_ - 1`, so the last live element is never destroyed, contradicting
the claim "destroys the last live element (the element at index size-1)". -/
theorem popBack_destroys_wrong_slot :
    (popBack (⟨[some 7], 1⟩ : VecState Nat)).size = 0 ∧
    slotGet (popBack (⟨[some 7], 1⟩ : VecState Nat)) 0 = some 7 := by
  decide

/-- Claim C2 (status: code_bug).  On the vector `[1, 2, 3]` (size 3,
capacity 3), `Erase` at the position of element `2` (index 1) does shift
the values left (value view `[1, 3]`), decrements the size to 2 and
returns index 1 (referring to value `3`), as the claim says — but the
vacated last slot, index `size - 1 = 2` after shifting, is NOT destroyed:
it still holds the live moved-from element (`some 3`), because the code
calls `std::destroy_at(data_.GetAddress() + size_)`, i.e. slot index 3,
one past the live range (undefined behaviour), instead of slot 2. -/
theorem erase_destroys_wrong_slot :
    erase (⟨[some 1, some 2, some 3], 3⟩ : VecState Nat) 1 =
      (⟨[some 1, some 3, some 3], 2⟩, 1) := by
  decide

/-- Claim C4 (status: code_bug).  The state reached from a freshly
default-constructed vector by `EmplaceBack(7)` followed by `PopBack()`
violates the claimed invariant: its size is 0 and its capacity is 1, but
slot 0 — which lies in `[size, capacity)` and should be uninitialized —
still holds the live element `7`, because `PopBack` destroys slot index
`size_` instead of `size_ - 1` (see C1). -/
theorem invariant_violated_after_popBack :
    ¬ WF (popBack (emplaceBack (vecNil Nat) 7)) := by
  decide

/-- Claim C9 (status: confirmed).  Assigning a vector to itself, by copy
assignment (`this != &rhs` guard at vector.h:305) or by move assignment
(`this != &other` guard at vector.h:374), leaves it completely unchanged:
same size, same capacity, same elements. -/
theorem self_assign_noop {α : Type} (v : VecState α) (ct : Nat → Bool) :
    copyAssignT true v v ct = .ok v ∧ moveAssign true v v = (v, v) :=
  ⟨rfl, rfl⟩

/-- Claim C10 (status: confirmed).  `Vector::Swap` (vector.h:131-135)
exchanges the two vectors' entire observable states: after `a.Swap(b)` the
left vector holds exactly `b`'s former block (elements and capacity) and
size, and vice versa.  The operation is `noexcept` and performs only
pointer/integer swaps, so it never throws — in the model it is a total
function with no throwing outcome. -/
theorem swap_exchanges_states {α : Type} (a b : VecState α) :
    (vswap a b).1.slots = b.slots ∧ (vswap a b).1.size = b.size ∧
    (vswap a b).2.slots = a.slots ∧ (vswap a b).2.size = a.size :=
  ⟨rfl, rfl, rfl, rfl⟩

/-- Claim C5 (status: confirmed).  During an append, capacity changes only
when `size == capacity` at the time of the call: when the vector is not
full, all three append forms leave the capacity unchanged; when it is
full, the copy-form `PushBack` grows the capacity to `max(2*old, 1)`
(code: `size_ == 0 ? 1 : size_ * 2`), and the forwarding `PushBack`
(code: `max(Capacity() * 2, size_ + 1)`) and `EmplaceBack`
(code: `size_ == 0 ? 1 : size_ * 2`, equal to `max(2*old, size+1)` when
`size == capacity`) grow it to `max(2*old, size+1)`.  Consequently,
pushing five integers one at a time onto an empty vector produces the
capacity sequence 0→1→2→4→4→8, ending with size 5 and capacity 8. -/
theorem append_capacity_policy :
    (∀ (α : Type) (v : VecState α) (x : α), v.size ≠ v.slots.length →
        (pushBackC v x).slots.length = v.slots.length) ∧
    (∀ (α : Type) (v : VecState α) (x : α), v.size = v.slots.length →
        (pushBackC v x).slots.length = max (2 * v.slots.length) 1) ∧
    (∀ (α : Type) (v : VecState α) (x : α), v.size < v.slots.length →
        (pushBackF v x).slots.length = v.slots.length) ∧
    (∀ (α : Type) (v : VecState α) (x : α), v.size = v.slots.length →
        (pushBackF v x).slots.length = max (2 * v.slots.length) (v.size + 1)) ∧
    (∀ (α : Type) (v : VecState α) (x : α), v.size ≠ v.slots.length →
        (emplaceBack v x).slots.length = v.slots.length) ∧
    (∀ (α : Type) (v : VecState α) (x : α), v.size = v.slots.length →
        (emplaceBack v x).slots.length = max (2 * v.slots.length) (v.size + 1)) ∧
    ((vecNil Nat).slots.length = 0 ∧
      (pushBackF (vecNil Nat) 1).slots.length = 1 ∧
      (pushBackF (pushBackF (vecNil Nat) 1) 2).slots.length = 2 ∧
      (pushBackF (pushBackF (pushBackF (vecNil Nat) 1) 2) 3).slots.length = 4 ∧
      (pushBackF (pushBackF (pushBackF (pushBackF (vecNil Nat) 1) 2) 3)
        4).slots.length = 4 ∧
      (pushBackF (pushBackF (pushBackF (pushBackF (pushBackF (vecNil Nat) 1)
        2) 3) 4) 5).slots.length = 8 ∧
      (pushBackF (pushBackF (pushBackF (pushBackF (pushBackF (vecNil Nat) 1)
        2) 3) 4) 5).size = 5) := by
  refine ⟨?_, ?_, ?_, ?_, ?_, ?_, by decide⟩
  · intro α v x h
    simp [pushBackC, h, newBlock_length]
  · rintro α ⟨s, n⟩ x h
    dsimp at h
    subst h
    by_cases h0 : s.length = 0
    · simp [pushBackC, newBlock_length, h0]
    · simp [pushBackC, newBlock_length, h0]
      omega
  · intro α v x h
    simp [pushBackF, h, newBlock_length]
  · rintro α ⟨s, n⟩ x h
    dsimp at h
    subst h
    simp only [pushBackF, if_neg (Nat.lt_irrefl s.length), newBlock_length]
    omega
  · intro α v x h
    simp [emplaceBack, h, newBlock_length]
  · rintro α ⟨s, n⟩ x h
    dsimp at h
    subst h
    by_cases h0 : s.length = 0
    · simp [emplaceBack, newBlock_length, h0]
    · simp [emplaceBack, newBlock_length, h0]
      omega

/-- Witness for C5: the copy-form `PushBack` on the full one-element vector
`[1]` grows the capacity to `max(2*1, 1) = 2`. -/
theorem append_capacity_policy_witness :
    (pushBackC (⟨[some 1], 1⟩ : VecState Nat) 5).slots.length = max (2 * 1) 1 :=
  append_capacity_policy.2.1 Nat ⟨[some 1], 1⟩ 5 rfl

/-- Helper: `popBack` applied to the state an append produced (a block of
`L` slots written by `g`, with size `v.size + 1`) restores size `v.size`
and leaves the slots `[0, v.size)` at their pre-append values, provided
`g` agrees with `v` on those slots. -/
theorem popBack_push_aux {α : Type} (v : VecState α) (L : Nat)
    (g : Nat → Option α)
    (hg : ∀ i, i < v.size →
      (i < L → g i = slotGet v i) ∧ (L ≤ i → slotGet v i = none)) :
    (popBack (⟨newBlock L g, v.size + 1⟩ : VecState α)).size = v.size ∧
    ∀ i, i < v.size →
      slotGet (popBack (⟨newBlock L g, v.size + 1⟩ : VecState α)) i =
        slotGet v i := by
  constructor
  · simp [popBack]
  · intro i hi
    have hne : ¬ (⟨newBlock L g, v.size + 1⟩ : VecState α).size = 0 :=
      Nat.succ_ne_zero _
    unfold popBack
    rw [if_neg hne]
    rw [slotGet_mk_newBlock, newBlock_length]
    dsimp only
    by_cases hL : i < L
    · rw [if_pos hL, if_neg (by omega : ¬ i = v.size + 1),
        slotGet_mk_newBlock, if_pos hL]
      exact (hg i hi).1 hL
    · rw [if_neg hL]
      exact ((hg i hi).2 (Nat.le_of_not_lt hL)).symm

/-- Claim C6 (status: confirmed).  For every vector state and every value
`x`, `PushBack(x)` (either overload) immediately followed by `PopBack()`
restores the prior size and leaves every element at indices
`[0, prior size)` unchanged.  (The `PopBack` off-by-one flagged in C1
targets slot index `prior size + 1`, which lies outside `[0, prior size)`,
so the observables named by this claim are indeed restored.) -/
theorem pushBack_popBack_roundtrip {α : Type} (v : VecState α) (x : α) :
    (popBack (pushBackC v x)).size = v.size ∧
    (∀ i, i < v.size → slotGet (popBack (pushBackC v x)) i = slotGet v i) ∧
    (popBack (pushBackF v x)).size = v.size ∧
    (∀ i, i < v.size → slotGet (popBack (pushBackF v x)) i = slotGet v i) := by
  have auxC : (popBack (pushBackC v x)).size = v.size ∧
      ∀ i, i < v.size → slotGet (popBack (pushBackC v x)) i = slotGet v i := by
    unfold pushBackC
    by_cases h : v.size = v.slots.length
    · rw [if_pos h]
      apply popBack_push_aux
      intro i hi
      have hsL : v.size ≤ (if v.size = 0 then 1 else v.size * 2) := by
        by_cases h0 : v.size = 0
        · omega
        · rw [if_neg h0]
          omega
      refine ⟨fun hL => ?_, fun hL => ?_⟩
      · rw [if_neg (by omega : ¬ i = v.size), if_pos hi]
      · exact absurd (Nat.lt_of_lt_of_le hi (Nat.le_trans hsL hL))
          (Nat.lt_irrefl i)
    · rw [if_neg h]
      apply popBack_push_aux
      intro i hi
      exact ⟨fun hL => by rw [if_neg (by omega : ¬ i = v.size)],
        fun hL => slotGet_oob v i hL⟩
  have auxF : (popBack (pushBackF v x)).size = v.size ∧
      ∀ i, i < v.size → slotGet (popBack (pushBackF v x)) i = slotGet v i := by
    unfold pushBackF
    by_cases h : v.size < v.slots.length
    · rw [if_pos h]
      apply popBack_push_aux
      intro i hi
      exact ⟨fun hL => by rw [if_neg (by omega : ¬ i = v.size)],
        fun hL => slotGet_oob v i hL⟩
    · rw [if_neg h]
      apply popBack_push_aux
      intro i hi
      have hsL : v.size ≤ max (v.slots.length * 2) (v.size + 1) :=
        Nat.le_trans (Nat.le_succ _) (Nat.le_max_right _ _)
      refine ⟨fun hL => ?_, fun hL => ?_⟩
      · rw [if_neg (by omega : ¬ i = v.size), if_pos hi]
      · exact absurd (Nat.lt_of_lt_of_le hi (Nat.le_trans hsL hL))
          (Nat.lt_irrefl i)
  exact ⟨auxC.1, auxC.2, auxF.1, auxF.2⟩

/-- Witness for C6: on the vector `[3]` (size 1), `PushBack(9)` followed by
`PopBack()` restores size 1 and leaves the element `3` at index 0. -/
theorem pushBack_popBack_roundtrip_witness :
    (popBack (pushBackC (⟨[some 3], 1⟩ : VecState Nat) 9)).size = 1 ∧
    slotGet (popBack (pushBackC (⟨[some 3], 1⟩ : VecState Nat) 9)) 0 = some 3 :=
  ⟨(pushBack_popBack_roundtrip ⟨[some 3], 1⟩ 9).1,
   ((pushBack_popBack_roundtrip ⟨[some 3], 1⟩ 9).2.1 0 (by decide)).trans
     (by decide)⟩

/-- Helper: after `reserve v n` the capacity is at least `n`, and slots
below both `v.size` and `n` keep their values (relocation is
value-preserving). -/
theorem reserve_facts {α : Type} (v : VecState α) (n : Nat) :
    n ≤ (reserve v n).slots.length ∧
    ∀ i, i < v.size → i < n → slotGet (reserve v n) i = slotGet v i := by
  unfold reserve
  by_cases h : v.slots.length < n
  · rw [if_pos h]
    dsimp only
    constructor
    · rw [newBlock_length]
    · intro i hi hin
      rw [slotGet_mk_newBlock, if_pos hin, if_pos hi]
  · rw [if_neg h]
    exact ⟨Nat.le_of_not_lt h, fun i _ _ => rfl⟩

/-- Claim C8 (status: confirmed).  `Resize(n)` with `n < size` destroys
exactly the trailing `size - n` elements (slots `[n, size)` become
uninitialized, every other slot and the capacity are untouched) and sets
the size to `n`; `Resize(n)` with `n > size` appends exactly `n - size`
default-constructed elements at slots `[size, n)` while leaving the first
`size` elements' values unchanged, and sets the size to `n`. -/
theorem resize_spec {α : Type} :
    (∀ (v : VecState α) (n : Nat) (d : α), n < v.size →
        (resize v n d).size = n ∧
        (resize v n d).slots.length = v.slots.length ∧
        (∀ i, i < n → slotGet (resize v n d) i = slotGet v i) ∧
        (∀ i, n ≤ i → i < v.size → slotGet (resize v n d) i = none) ∧
        (∀ i, v.size ≤ i → slotGet (resize v n d) i = slotGet v i)) ∧
    (∀ (v : VecState α) (n : Nat) (d : α), v.size < n →
        (resize v n d).size = n ∧
        (∀ i, i < v.size → slotGet (resize v n d) i = slotGet v i) ∧
        (∀ i, v.size ≤ i → i < n → slotGet (resize v n d) i = some d)) := by
  constructor
  · intro v n d h
    unfold resize
    rw [if_pos h]
    dsimp only
    refine ⟨rfl, newBlock_length _ _, ?_, ?_, ?_⟩
    · intro i hi
      rw [slotGet_mk_newBlock]
      by_cases hil : i < v.slots.length
      · rw [if_pos hil, if_neg (by omega : ¬ (n ≤ i ∧ i < v.size))]
      · rw [if_neg hil]
        exact (slotGet_oob v i (Nat.le_of_not_lt hil)).symm
    · intro i hi1 hi2
      rw [slotGet_mk_newBlock]
      by_cases hil : i < v.slots.length
      · rw [if_pos hil, if_pos ⟨hi1, hi2⟩]
      · rw [if_neg hil]
    · intro i hi
      rw [slotGet_mk_newBlock]
      by_cases hil : i < v.slots.length
      · rw [if_pos hil, if_neg (by omega : ¬ (n ≤ i ∧ i < v.size))]
      · rw [if_neg hil]
        exact (slotGet_oob v i (Nat.le_of_not_lt hil)).symm
  · intro v n d h
    have hwl := (reserve_facts v n).1
    have hwv := (reserve_facts v n).2
    unfold resize
    rw [if_neg (by omega : ¬ n < v.size), if_pos h]
    dsimp only
    refine ⟨rfl, ?_, ?_⟩
    · intro i hi
      rw [slotGet_mk_newBlock,
        if_pos (by omega : i < (reserve v n).slots.length),
        if_neg (by omega : ¬ (v.size ≤ i ∧ i < n))]
      exact hwv i hi (by omega)
    · intro i hi hin
      rw [slotGet_mk_newBlock,
        if_pos (by omega : i < (reserve v n).slots.length),
        if_pos ⟨hi, hin⟩]

/-- Witness for C8: resizing the two-element vector `[1, 2]` down to 1
destroys the trailing element (slot 1 becomes uninitialized), keeps
element `1` at slot 0, and resizing the same vector up to 3 writes the
default value 0 into slot 2. -/
theorem resize_spec_witness :
    (resize (⟨[some 1, some 2], 2⟩ : VecState Nat) 1 0).size = 1 ∧
    slotGet (resize (⟨[some 1, some 2], 2⟩ : VecState Nat) 1 0) 1 = none ∧
    slotGet (resize (⟨[some 1, some 2], 2⟩ : VecState Nat) 1 0) 0 = some 1 ∧
    slotGet (resize (⟨[some 1, some 2], 2⟩ : VecState Nat) 3 0) 2 = some 0 :=
  ⟨(resize_spec.1 ⟨[some 1, some 2], 2⟩ 1 0 (by decide)).1,
   (resize_spec.1 ⟨[some 1, some 2], 2⟩ 1 0 (by decide)).2.2.2.1 1
     (by decide) (by decide),
   ((resize_spec.1 ⟨[some 1, some 2], 2⟩ 1 0 (by decide)).2.2.1 0
     (by decide)).trans (by decide),
   (resize_spec.2 ⟨[some 1, some 2], 2⟩ 3 0 (by decide)).2.2 2
     (by decide) (by decide)⟩

/-- Claim C7 (status: confirmed).  For distinct vectors, copy assignment
makes the left side element-wise equal to the right with equal sizes; when
`rhs.size > lhs.capacity` it builds a full copy and swaps, so a throw
during the copy leaves the left side unchanged and a successful run always
installs a freshly allocated block of capacity `rhs.size`; otherwise it
works in place with unchanged capacity, overwriting `min(lhs.size,
rhs.size)` slots by assignment and then either copy-constructing the
remaining `rhs` elements or destroying the left side's surplus slots
`[rhs.size, lhs.size)` (the slots past `lhs.size` stay untouched). -/
theorem copyAssign_spec {α : Type} :
    (∀ (lhs rhs : VecState α) (ct : Nat → Bool) (w : VecState α),
        copyAssignT false lhs rhs ct = .ok w →
        w.size = rhs.size ∧ ∀ i, i < rhs.size → slotGet w i = slotGet rhs i) ∧
    (∀ (lhs rhs : VecState α) (ct : Nat → Bool) (e : VecState α),
        copyAssignT false lhs rhs ct = .threw e →
        lhs.slots.length < rhs.size ∧ e = lhs) ∧
    (∀ (lhs rhs : VecState α) (ct : Nat → Bool) (w : VecState α),
        lhs.slots.length < rhs.size →
        copyAssignT false lhs rhs ct = .ok w → w.slots.length = rhs.size) ∧
    (∀ (lhs rhs : VecState α) (ct : Nat → Bool) (w : VecState α),
        rhs.size ≤ lhs.slots.length →
        copyAssignT false lhs rhs ct = .ok w →
        w.slots.length = lhs.slots.length ∧
        (∀ i, rhs.size ≤ i → i < lhs.size → slotGet w i = none) ∧
        (∀ i, rhs.size ≤ i → lhs.size ≤ i → slotGet w i = slotGet lhs i)) := by
  have hred : ∀ (lhs rhs : VecState α) (ct : Nat → Bool),
      copyAssignT false lhs rhs ct =
        if lhs.slots.length < rhs.size then
          if (List.range rhs.size).any ct = true then CopyResult.threw lhs
          else .ok ⟨newBlock rhs.size (fun i => slotGet rhs i), rhs.size⟩
        else if lhs.size ≤ rhs.size then
          .ok ⟨newBlock lhs.slots.length (fun i =>
              if i < rhs.size then slotGet rhs i else slotGet lhs i), rhs.size⟩
        else
          .ok ⟨newBlock lhs.slots.length (fun i =>
              if i < rhs.size then slotGet rhs i
              else if i < lhs.size then none
              else slotGet lhs i), rhs.size⟩ := by
    intro lhs rhs ct
    unfold copyAssignT
    rw [if_neg Bool.false_ne_true]
  refine ⟨?_, ?_, ?_, ?_⟩
  · intro lhs rhs ct w hw
    rw [hred] at hw
    by_cases h1 : lhs.slots.length < rhs.size
    · rw [if_pos h1] at hw
      by_cases h2 : (List.range rhs.size).any ct = true
      · rw [if_pos h2] at hw
        exact CopyResult.noConfusion hw
      · rw [if_neg h2] at hw
        injection hw with hww
        subst hww
        refine ⟨rfl, fun i hi => ?_⟩
        rw [slotGet_mk_newBlock, if_pos hi]
    · rw [if_neg h1] at hw
      by_cases h2 : lhs.size ≤ rhs.size
      · rw [if_pos h2] at hw
        injection hw with hww
        subst hww
        refine ⟨rfl, fun i hi => ?_⟩
        rw [slotGet_mk_newBlock, if_pos (by omega : i < lhs.slots.length),
          if_pos hi]
      · rw [if_neg h2] at hw
        injection hw with hww
        subst hww
        refine ⟨rfl, fun i hi => ?_⟩
        rw [slotGet_mk_newBlock, if_pos (by omega : i < lhs.slots.length),
          if_pos hi]
  · intro lhs rhs ct e he
    rw [hred] at he
    by_cases h1 : lhs.slots.length < rhs.size
    · rw [if_pos h1] at he
      by_cases h2 : (List.range rhs.size).any ct = true
      · rw [if_pos h2] at he
        injection he with hee
        exact ⟨h1, hee.symm⟩
      · rw [if_neg h2] at he
        exact CopyResult.noConfusion he
    · rw [if_neg h1] at he
      by_cases h2 : lhs.size ≤ rhs.size
      · rw [if_pos h2] at he
        exact CopyResult.noConfusion he
      · rw [if_neg h2] at he
        exact CopyResult.noConfusion he
  · intro lhs rhs ct w h1 hw
    rw [hred, if_pos h1] at hw
    by_cases h2 : (List.range rhs.size).any ct = true
    · rw [if_pos h2] at hw
      exact CopyResult.noConfusion hw
    · rw [if_neg h2] at hw
      injection hw with hww
      subst hww
      exact newBlock_length _ _
  · intro lhs rhs ct w h1 hw
    rw [hred, if_neg (by omega : ¬ lhs.slots.length < rhs.size)] at hw
    by_cases h2 : lhs.size ≤ rhs.size
    · rw [if_pos h2] at hw
      injection hw with hww
      subst hww
      refine ⟨newBlock_length _ _, fun i hi1 hi2 => ?_, fun i hi1 hi2 => ?_⟩
      · exact absurd hi2 (by omega)
      · rw [slotGet_mk_newBlock]
        by_cases hil : i < lhs.slots.length
        · rw [if_pos hil, if_neg (by omega : ¬ i < rhs.size)]
        · rw [if_neg hil]
          exact (slotGet_oob lhs i (by omega)).symm
    · rw [if_neg h2] at hw
      injection hw with hww
      subst hww
      refine ⟨newBlock_length _ _, fun i hi1 hi2 => ?_, fun i hi1 hi2 => ?_⟩
      · rw [slotGet_mk_newBlock]
        by_cases hil : i < lhs.slots.length
        · rw [if_pos hil, if_neg (by omega : ¬ i < rhs.size), if_pos hi2]
        · rw [if_neg hil]
      · rw [slotGet_mk_newBlock]
        by_cases hil : i < lhs.slots.length
        · rw [if_pos hil, if_neg (by omega : ¬ i < rhs.size),
            if_neg (by omega : ¬ i < lhs.size)]
        · rw [if_neg hil]
          exact (slotGet_oob lhs i (by omega)).symm

/-- Witness for C7: assigning the two-element vector `[1, 2]` to the
one-element vector `[5]` goes through the reallocating branch
(`rhs.size = 2 >` capacity 1); when copying element 0 throws, the left
side is observably unchanged. -/
theorem copyAssign_spec_witness :
    (⟨[some 5], 1⟩ : VecState Nat).slots.length <
      (⟨[some 1, some 2], 2⟩ : VecState Nat).size ∧
    (⟨[some 5], 1⟩ : VecState Nat) = ⟨[some 5], 1⟩ :=
  copyAssign_spec.2.1 ⟨[some 5], 1⟩ ⟨[some 1, some 2], 2⟩ (fun _ => true)
    ⟨[some 5], 1⟩ (by decide)

/-- Counterexample to claim C3.  On the full one-element vector `[1]`,
`EmplaceBack(2)` with a relocation (copy) that throws ends in the
`threwReloc` outcome with `newDestroyed = false`: the code has no
`try`/`catch` around its relocation (vector.h:224-228), so the new element
already constructed in the new block is never destroyed before the
exception propagates — contradicting the claim that "the new element is
destroyed" when relocation throws.  (The array itself is observably
unchanged, as the claim says.) -/
theorem emplaceBack_reloc_throw_leaks :
    emplaceBackT (⟨[some 1], 1⟩ : VecState Nat) 2 false false (fun _ => true) =
      .threwReloc ⟨[some 1], 1⟩ false ∧
    emplaceBackT (⟨[some 1], 1⟩ : VecState Nat) 2 false false (fun _ => true) ≠
      .threwReloc ⟨[some 1], 1⟩ true := by
  decide

/-- Claim C3 as amended (status: corrected).  For both the forwarding
`PushBack` and `EmplaceBack`: the new element is constructed at its target
slot (index `size`) of the possibly-new block before any old element is
relocated; if that construction throws, the array is observably unchanged.
If the subsequent relocation of old elements throws, the error is rethrown
and the array is observably unchanged in both operations; the forwarding
`PushBack` additionally destroys the already-constructed new element
(`newDestroyed = true`), but `EmplaceBack` does not — the new element is
leaked (`newDestroyed = false`). -/
theorem append_strong_safety_amended {α : Type} :
    (∀ (v : VecState α) (x : α) (m : Bool) (r : Nat → Bool),
        pushBackFT v x true m r = .threwNew v) ∧
    (∀ (v : VecState α) (x : α) (m : Bool) (r : Nat → Bool) (w : VecState α)
        (b : Bool), pushBackFT v x false m r = .threwReloc w b →
        w = v ∧ b = true) ∧
    (∀ (v : VecState α) (x : α) (m : Bool) (r : Nat → Bool) (w : VecState α),
        pushBackFT v x false m r = .ok w →
        w.size = v.size + 1 ∧ slotGet w v.size = some x) ∧
    (∀ (v : VecState α) (x : α) (m : Bool) (r : Nat → Bool),
        emplaceBackT v x true m r = .threwNew v) ∧
    (∀ (v : VecState α) (x : α) (m : Bool) (r : Nat → Bool) (w : VecState α)
        (b : Bool), emplaceBackT v x false m r = .threwReloc w b →
        w = v ∧ b = false) ∧
    (∀ (v : VecState α) (x : α) (m : Bool) (r : Nat → Bool) (w : VecState α),
        v.size ≤ v.slots.length → emplaceBackT v x false m r = .ok w →
        w.size = v.size + 1 ∧ slotGet w v.size = some x) := by
  refine ⟨?_, ?_, ?_, ?_, ?_, ?_⟩
  · intro v x m r
    unfold pushBackFT
    by_cases h : v.size < v.slots.length
    · rw [if_pos h, if_pos rfl]
    · rw [if_neg h, if_pos rfl]
  · intro v x m r w b hw
    unfold pushBackFT at hw
    by_cases h : v.size < v.slots.length
    · rw [if_pos h, if_neg Bool.false_ne_true] at hw
      exact PushResult.noConfusion hw
    · rw [if_neg h, if_neg Bool.false_ne_true] at hw
      by_cases h2 : m = false ∧ (List.range v.size).any r = true
      · rw [if_pos h2] at hw
        injection hw with hw1 hw2
        exact ⟨hw1.symm, hw2.symm⟩
      · rw [if_neg h2] at hw
        exact PushResult.noConfusion hw
  · intro v x m r w hw
    unfold pushBackFT at hw
    by_cases h : v.size < v.slots.length
    · rw [if_pos h, if_neg Bool.false_ne_true] at hw
      injection hw with hww
      subst hww
      constructor
      · unfold pushBackF
        rw [if_pos h]
      · unfold pushBackF
        rw [if_pos h, slotGet_mk_newBlock, if_pos h, if_pos rfl]
    · rw [if_neg h, if_neg Bool.false_ne_true] at hw
      by_cases h2 : m = false ∧ (List.range v.size).any r = true
      · rw [if_pos h2] at hw
        exact PushResult.noConfusion hw
      · rw [if_neg h2] at hw
        injection hw with hww
        subst hww
        constructor
        · unfold pushBackF
          rw [if_neg h]
        · unfold pushBackF
          rw [if_neg h, slotGet_mk_newBlock,
            if_pos (by omega : v.size < max (v.slots.length * 2) (v.size + 1)),
            if_pos rfl]
  · intro v x m r
    unfold emplaceBackT
    by_cases h : v.size = v.slots.length
    · rw [if_pos h, if_pos rfl]
    · rw [if_neg h, if_pos rfl]
  · intro v x m r w b hw
    unfold emplaceBackT at hw
    by_cases h : v.size = v.slots.length
    · rw [if_pos h, if_neg Bool.false_ne_true] at hw
      by_cases h2 : m = false ∧ (List.range v.size).any r = true
      · rw [if_pos h2] at hw
        injection hw with hw1 hw2
        exact ⟨hw1.symm, hw2.symm⟩
      · rw [if_neg h2] at hw
        exact PushResult.noConfusion hw
    · rw [if_neg h, if_neg Bool.false_ne_true] at hw
      exact PushResult.noConfusion hw
  · intro v x m r w hwf hw
    unfold emplaceBackT at hw
    by_cases h : v.size = v.slots.length
    · rw [if_pos h, if_neg Bool.false_ne_true] at hw
      by_cases h2 : m = false ∧ (List.range v.size).any r = true
      · rw [if_pos h2] at hw
        exact PushResult.noConfusion hw
      · rw [if_neg h2] at hw
        injection hw with hww
        subst hww
        constructor
        · unfold emplaceBack
          rw [if_pos h]
        · unfold emplaceBack
          have hlt : v.size < (if v.size = 0 then 1 else v.size * 2) := by
            by_cases h0 : v.size = 0
            · rw [if_pos h0]
              omega
            · rw [if_neg h0]
              omega
          rw [if_pos h, slotGet_mk_newBlock, if_pos hlt, if_pos rfl]
    · rw [if_neg h, if_neg Bool.false_ne_true] at hw
      injection hw with hww
      subst hww
      constructor
      · unfold emplaceBack
        rw [if_neg h]
      · unfold emplaceBack
        rw [if_neg h, slotGet_mk_newBlock,
          if_pos (by omega : v.size < v.slots.length), if_pos rfl]

/-- Witness for the amended C3: on the full one-element vector `[1]`, when
relocation inside `EmplaceBack(2)` throws, the observable state equals the
original and the new element was not destroyed. -/
theorem append_strong_safety_amended_witness :
    (⟨[some 1], 1⟩ : VecState Nat) = ⟨[some 1], 1⟩ ∧ (false : Bool) = false :=
  append_strong_safety_amended.2.2.2.2.1 ⟨[some 1], 1⟩ 2 false
    (fun _ => true) ⟨[some 1], 1⟩ false (by decide)

end AdvVector
